import Mathlib

/-!
Shallow embedding of the TelegramExpenseBot core (src/bot.py): the amount
parser, the SQLite-backed entry store, its aggregate queries, and the free-text
router.  Python floats are modelled as exact rationals, timestamps (fixed-width
strings compared lexicographically in SQL, hence chronologically) as naturals,
and ASCII character classes stand in for the Unicode ones (all tokens the bot
documents and the claims mention are ASCII).  A raised ValueError in
parse_amount is modelled as an error value of an Except; the one caller wraps
the call in a try/except.
-/

/-- ASCII decimal digit, the characters matched by the backslash-d class of
the amount regex on the ASCII tokens involved. -/
def isDigitC (c : Char) : Bool := 48 ≤ c.toNat && c.toNat ≤ 57

/-- A sign character, '+' or '-'. -/
def isSignC (c : Char) : Bool := c.toNat == 43 || c.toNat == 45

/-- Numeric value of a digit character. -/
def charVal (c : Char) : Nat := c.toNat - 48

/-- Value of a most-significant-first list of digit characters, as float(...)
reads the integer part. -/
def digitsVal (cs : List Char) : Nat := cs.foldl (fun a c => 10 * a + charVal c) 0

/-- The regex piece matching one to three digits greedily: since everything
after it in the pattern can match the empty string, the greedy match never
backtracks, so it simply takes the first min(3, run) digits. -/
def takeD3 : List Char → Option (List Char × List Char)
  | [] => none
  | c1 :: r1 =>
    if isDigitC c1 then
      match r1 with
      | c2 :: r2 =>
        if isDigitC c2 then
          match r2 with
          | c3 :: r3 =>
            if isDigitC c3 then some ([c1, c2, c3], r3) else some ([c1, c2], c3 :: r3)
          | [] => some ([c1, c2], [])
        else some ([c1], c2 :: r2)
      | [] => some ([c1], [])
    else none

/-- The starred group of the amount regex: a comma followed by exactly three
digits, repeated greedily. -/
def takeGroups : List Char → List Char × List Char
  | ',' :: d1 :: d2 :: d3 :: rest =>
    if isDigitC d1 && isDigitC d2 && isDigitC d3 then
      let p := takeGroups rest
      (',' :: d1 :: d2 :: d3 :: p.1, p.2)
    else ([], ',' :: d1 :: d2 :: d3 :: rest)
  | cs => ([], cs)

/-- The optional fractional part of the amount regex: a dot followed by one or
more digits, taken greedily. -/
def takeFrac : List Char → List Char × List Char
  | '.' :: c :: rest =>
    if isDigitC c then
      ('.' :: c :: rest.takeWhile isDigitC, rest.dropWhile isDigitC)
    else ([], '.' :: c :: rest)
  | cs => ([], cs)

/-- Body of the first regex alternative after the optional sign: one to three
digits, then comma groups, then an optional fraction. -/
def matchTailA (cs : List Char) : Option (List Char) :=
  match takeD3 cs with
  | none => none
  | some (ds, r1) =>
    let gr := takeGroups r1
    let fr := takeFrac gr.2
    some (ds ++ gr.1 ++ fr.1)

/-- First alternative of the amount regex at a fixed position: optional sign,
one to three digits, comma groups, optional fraction.  When a sign is present
but no digit follows, backtracking to the empty sign also fails (the sign
character is not a digit), so the whole alternative fails. -/
def matchAltA : List Char → Option (List Char)
  | [] => none
  | c :: rest =>
    if isSignC c then (matchTailA rest).map (fun m => c :: m)
    else matchTailA (c :: rest)

/-- Body of the second regex alternative after the optional sign: one or more
digits, then an optional fraction. -/
def matchTailB (cs : List Char) : Option (List Char) :=
  let ds := cs.takeWhile isDigitC
  if ds.isEmpty then none
  else
    let fr := takeFrac (cs.dropWhile isDigitC)
    some (ds ++ fr.1)

/-- Second alternative of the amount regex at a fixed position: optional sign,
one or more digits, optional fraction. -/
def matchAltB : List Char → Option (List Char)
  | [] => none
  | c :: rest =>
    if isSignC c then (matchTailB rest).map (fun m => c :: m)
    else matchTailB (c :: rest)

/-- The whole alternation at a fixed position; the left alternative is
preferred, as in the regex engine. -/
def matchAt (cs : List Char) : Option (List Char) :=
  match matchAltA cs with
  | some m => some m
  | none => matchAltB cs

/-- re.search: try the pattern at each position left to right and return the
first (leftmost) match.  The pattern cannot match the empty string, so the
final empty position never matches. -/
def reSearch : List Char → Option (List Char)
  | [] => none
  | c :: rest =>
    match matchAt (c :: rest) with
    | some m => some m
    | none => reSearch rest

/-- Magnitude part of Python float() on a matched numeric string: integer
digits, then an optional dot and fraction digits, read exactly (floats are
modelled as rationals). -/
def floatMag (cs : List Char) : ℚ :=
  let ip := cs.takeWhile isDigitC
  match cs.dropWhile isDigitC with
  | '.' :: f => (digitsVal ip : ℚ) + (digitsVal f : ℚ) / (10 : ℚ) ^ f.length
  | _ => (digitsVal ip : ℚ)

/-- Python float() on the matched string (comma-free): optional sign, then the
magnitude. -/
def floatOfChars (cs : List Char) : ℚ :=
  match cs with
  | [] => floatMag []
  | c :: rest =>
    if c = '-' then -(floatMag rest)
    else if c = '+' then floatMag rest
    else floatMag (c :: rest)

instance {ε α : Type} [DecidableEq ε] [DecidableEq α] : DecidableEq (Except ε α) :=
  fun x y =>
    match x, y with
    | .error a, .error b =>
      if h : a = b then isTrue (h ▸ rfl) else isFalse fun he => h (Except.error.inj he)
    | .ok a, .ok b =>
      if h : a = b then isTrue (h ▸ rfl) else isFalse fun he => h (Except.ok.inj he)
    | .error _, .ok _ => isFalse fun h => Except.noConfusion h
    | .ok _, .error _ => isFalse fun h => Except.noConfusion h

/-- parse_amount from src/bot.py: remove every dollar sign, search for the
first substring matching the amount regex, raise ValueError (modelled as an
error value) when there is none, and otherwise return float of the match with
its commas removed. -/
def parse_amount (token : String) : Except String ℚ :=
  match reSearch (token.data.filter (fun c => c != '$')) with
  | none => Except.error "no number"
  | some m => Except.ok (floatOfChars (m.filter (fun c => c != ',')))

/-- ASCII lower-casing of one character, the effect of both Python str.lower
and SQLite LOWER on the ASCII labels involved. -/
def asciiLowerChar (c : Char) : Char :=
  if 65 ≤ c.toNat ∧ c.toNat ≤ 90 then Char.ofNat (c.toNat + 32) else c

/-- ASCII lower-casing of a string. -/
def asciiLower (s : String) : String := ⟨s.data.map asciiLowerChar⟩

/-- ASCII upper-casing of one character. -/
def asciiUpperChar (c : Char) : Char :=
  if 97 ≤ c.toNat ∧ c.toNat ≤ 122 then Char.ofNat (c.toNat - 32) else c

/-- ASCII letter. -/
def isAlphaC (c : Char) : Bool :=
  (65 ≤ c.toNat && c.toNat ≤ 90) || (97 ≤ c.toNat && c.toNat ≤ 122)

/-- Whitespace as stripped and split on by Python string methods. -/
def isSpaceC (c : Char) : Bool :=
  c.toNat == 32 || c.toNat == 9 || c.toNat == 10 || c.toNat == 13 ||
    c.toNat == 11 || c.toNat == 12

/-- Python str.strip on a character list: drop whitespace from both ends. -/
def pyStripChars (cs : List Char) : List Char :=
  ((cs.dropWhile isSpaceC).reverse.dropWhile isSpaceC).reverse

/-- Python str.strip. -/
def pyStrip (s : String) : String := ⟨pyStripChars s.data⟩

/-- Python str.title on a character list: upper-case a letter not preceded by
a letter, lower-case a letter preceded by one. -/
def titleChars : Bool → List Char → List Char
  | _, [] => []
  | prevAlpha, c :: rest =>
    (if isAlphaC c then (if prevAlpha then asciiLowerChar c else asciiUpperChar c) else c)
      :: titleChars (isAlphaC c) rest

/-- pretty from src/bot.py: strip the label and title-case it (display only). -/
def pretty (cat : String) : String := ⟨titleChars false (pyStripChars cat.data)⟩

/-- Python split(None, 2) on an already stripped string: split on whitespace
runs, at most twice; the third piece is the remainder with its leading
whitespace consumed as part of the separator. -/
def splitMax2Chars (cs : List Char) : List (List Char) :=
  let cs1 := cs.dropWhile isSpaceC
  if cs1.isEmpty then []
  else
    let t1 := cs1.takeWhile (fun c => !isSpaceC c)
    let r1 := (cs1.dropWhile (fun c => !isSpaceC c)).dropWhile isSpaceC
    if r1.isEmpty then [t1]
    else
      let t2 := r1.takeWhile (fun c => !isSpaceC c)
      let r2 := (r1.dropWhile (fun c => !isSpaceC c)).dropWhile isSpaceC
      if r2.isEmpty then [t1, t2] else [t1, t2, r2]

/-- Python split(None, 2) giving strings. -/
def splitMax2 (s : String) : List String := (splitMax2Chars s.data).map (fun l => ⟨l⟩)

/-- One row of the expenses table of src/bot.py.  The timestamp column holds a
fixed-width datetime string whose SQL BETWEEN comparison is lexicographic and
hence chronological; it is modelled as a natural number. -/
structure Entry where
  id : Nat
  timestamp : Nat
  user : String
  entry_type : String
  name : String
  amount : ℚ
  category : String
  note : String
  payment_method : String
  account_type : String
deriving DecidableEq

/-- The expenses table plus the sqlite_sequence counter that the AUTOINCREMENT
primary key keeps: every row id ever assigned is at most seq, and the next
insert is assigned seq + 1. -/
structure Store where
  rows : List Entry
  seq : Nat
deriving DecidableEq

/-- log_expense_to_db from src/bot.py: insert an Expense row with the current
time and return the fresh AUTOINCREMENT id (cursor.lastrowid). -/
def log_expense_to_db (s : Store) (now : Nat) (category_lower : String) (amount : ℚ)
    (note : String) (user_hint : String) : Store × Nat :=
  let exp_id := s.seq + 1
  (⟨s.rows ++ [⟨exp_id, now, user_hint, "Expense", "", amount, category_lower, note,
      "Cash", ""⟩], exp_id⟩, exp_id)

/-- clear_all_data from src/bot.py: DELETE FROM expenses.  A bare DELETE does
not touch the sqlite_sequence row of an AUTOINCREMENT table, so seq is kept. -/
def clear_all_data (s : Store) : Store := ⟨[], s.seq⟩

/-- The WHERE clause of get_totals_all: entry_type is Expense and, when both
bounds are supplied, timestamp BETWEEN start and end (inclusive on both ends). -/
def expenseInWindow (w : Option (Nat × Nat)) (e : Entry) : Bool :=
  e.entry_type == "Expense" &&
    (match w with
     | none => true
     | some p => decide (p.1 ≤ e.timestamp ∧ e.timestamp ≤ p.2))

/-- GROUP BY category: the distinct category values in first-appearance
order. -/
def distinctCats (rows : List Entry) : List String :=
  rows.foldl (fun acc e => if acc.contains e.category then acc else acc ++ [e.category]) []

/-- SELECT category, SUM(amount) ... GROUP BY category over a row list.
SQLite groups by the exact (case-sensitive) stored value. -/
def groupSums (rows : List Entry) : List (String × ℚ) :=
  (distinctCats rows).map
    (fun c => (c, ((rows.filter (fun e => e.category == c)).map (fun e => e.amount)).sum))

/-- get_totals_all from src/bot.py: per-category sums of Expense rows, with an
optional inclusive timestamp window. -/
def get_totals_all (s : Store) (w : Option (Nat × Nat)) : List (String × ℚ) :=
  groupSums (s.rows.filter (expenseInWindow w))

/-- Stable descending insertion by the sum component: a pair is placed before
the first pair with a strictly smaller sum. -/
def insertDescQ (x : String × ℚ) : List (String × ℚ) → List (String × ℚ)
  | [] => [x]
  | y :: ys => if y.2 < x.2 then x :: y :: ys else y :: insertDescQ x ys

/-- Stable sort by sum descending, as ORDER BY SUM(amount) DESC orders the
groups and as the Python sort with reverse set orders the totals (SQLite fixes
no order between equal sums; this model keeps the stable one). -/
def sortDescQ (l : List (String × ℚ)) : List (String × ℚ) :=
  l.foldl (fun acc x => insertDescQ x acc) []

/-- get_categories_with_sums_all from src/bot.py: per-category sums of all
Expense rows, ordered by sum descending. -/
def get_categories_with_sums_all (s : Store) : List (String × ℚ) :=
  sortDescQ (groupSums (s.rows.filter (fun e => e.entry_type == "Expense")))

/-- The sorted totals list that sum_all from src/bot.py renders: the all-time
totals, sorted by sum descending in Python. -/
def sum_all_totals (s : Store) : List (String × ℚ) :=
  sortDescQ (get_totals_all s none)

/-- delete_expense_by_id_global from src/bot.py: DELETE the row with the given
id and report whether the rowcount was positive. -/
def delete_expense_by_id_global (s : Store) (expense_id : Nat) : Store × Bool :=
  let remaining := s.rows.filter (fun e => !(e.id == expense_id))
  (⟨remaining, s.seq⟩, decide (remaining.length < s.rows.length))

/-- get_category_sum_all from src/bot.py: COALESCE(SUM(amount), 0) over the
Expense rows whose LOWER(category) equals the already lowered key; the empty
sum is the number 0. -/
def get_category_sum_all (s : Store) (category_lower : String) : ℚ :=
  ((s.rows.filter
      (fun e => e.entry_type == "Expense" && asciiLower e.category == category_lower)).map
    (fun e => e.amount)).sum

/-- Comparison ordering the rows of get_category_details_all: timestamp
descending, ties by id descending; true when a goes strictly before b. -/
def detailBefore (a b : Entry) : Bool :=
  decide (b.timestamp < a.timestamp ∨ (b.timestamp = a.timestamp ∧ b.id < a.id))

/-- Stable insertion for the detail ordering. -/
def insertDetail (x : Entry) : List Entry → List Entry
  | [] => [x]
  | y :: ys => if detailBefore x y then x :: y :: ys else y :: insertDetail x ys

/-- get_category_details_all from src/bot.py: the Expense rows whose
LOWER(category) equals the lowered key, most recent first (timestamp
descending, then id descending). -/
def get_category_details_all (s : Store) (category_lower : String) : List Entry :=
  ((s.rows.filter
      (fun e => e.entry_type == "Expense" && asciiLower e.category == category_lower)).foldl
    (fun acc x => insertDetail x acc) [])

/-- detail_command from src/bot.py, reduced to its store reads: the raw
argument text is stripped and lowered, then the all-time total and the detail
rows for that key are fetched. -/
def detail_command (s : Store) (raw : String) : ℚ × List Entry :=
  let category_lower := asciiLower (pyStrip raw)
  (get_category_sum_all s category_lower, get_category_details_all s category_lower)

/-- The replies text_router can produce, reduced to their data. -/
inductive Reply where
  | needCategoryAmount : Reply
  | amountNotNumber : Reply
  | logged : Nat → String → ℚ → Reply
deriving DecidableEq

/-- text_router from src/bot.py: strip and split the message into at most
three fields; with fewer than two fields ask for category and amount; lower
the category token; on a parse_amount failure (the raised ValueError is caught
here) reply with the amount hint and leave the store untouched; otherwise
insert and reply with the fresh id and the new all-time category total. -/
def text_router (s : Store) (now : Nat) (text : String) : Store × Reply :=
  match splitMax2 (pyStrip text) with
  | [] => (s, Reply.needCategoryAmount)
  | [_] => (s, Reply.needCategoryAmount)
  | p0 :: p1 :: rest =>
    let category_lower := pyStrip (asciiLower p0)
    match parse_amount p1 with
    | Except.error _ => (s, Reply.amountNotNumber)
    | Except.ok amount =>
      let note := match rest with | n :: _ => n | [] => ""
      let ins := log_expense_to_db s now category_lower amount note ""
      let cat_sum := get_category_sum_all ins.1 category_lower
      (ins.1, Reply.logged ins.2 (pretty category_lower) cat_sum)


/-- The store of the inserting-then-summing scenario: Expense entries
(Food, 10), (Food, 5), (Gas, 20) inserted into an empty store. -/
def threeInsertStore : Store :=
  (log_expense_to_db
    (log_expense_to_db
      (log_expense_to_db ⟨[], 0⟩ 1 "Food" 10 "" "").1 2 "Food" 5 "" "").1
    3 "Gas" 20 "" "").1

/-- Decimal digit characters of a natural number, most significant first
(helper for the spec-modelled money formatter). -/
def natDigitChars (n : Nat) : List Char :=
  if _h : n < 10 then [Char.ofNat (48 + n)]
  else natDigitChars (n / 10) ++ [Char.ofNat (48 + n % 10)]
decreasing_by exact Nat.div_lt_self (by omega) (by omega)

/-- Pad a digit group with leading zeros to width three. -/
def pad3 (ds : List Char) : List Char := List.replicate (3 - ds.length) '0' ++ ds

/-- Thousands-separated rendering of a natural number: the last three digits
are split off with a comma while more than three remain. -/
def formatNat (n : Nat) : List Char :=
  if _h : n < 1000 then natDigitChars n
  else formatNat (n / 1000) ++ ',' :: pad3 (natDigitChars (n % 1000))
decreasing_by exact Nat.div_lt_self (by omega) (by omega)

/-- Modelled from the spec: the integer money formatter (render with a
thousands separator, minus sign for negatives).  src/bot.py never re-parses
its own replies and has no such formatter, so the round-trip property is
stated against this spec-described rendering. -/
def formatAmount (t : Int) : String :=
  ⟨(if t < 0 then ['-'] else []) ++ formatNat t.natAbs⟩

/-- Concatenation of comma-prefixed three-digit groups, the shape of the tail
of a thousands-separated numeral. -/
def flatG : List (List Char) → List Char
  | [] => []
  | g :: gs => ',' :: g ++ flatG gs

/-- Binary64 rounding of an integer magnitude: round to the nearest multiple
of the unit in the last place of a 53-bit significand, ties to even.  This is
the value Python float() returns for an integer decimal numeral, which is what
parse_amount computes in src/bot.py; magnitudes at most 2 ^ 53 are exact.
Overflow to infinity, far beyond the magnitudes considered here, is not
modelled. -/
def roundB64Nat (n : Nat) : Nat :=
  if n ≤ 2 ^ 53 then n
  else
    let e := n.log2 - 52
    let q := n / 2 ^ e
    let r := n % 2 ^ e
    if r < 2 ^ (e - 1) then q * 2 ^ e
    else if 2 ^ (e - 1) < r then (q + 1) * 2 ^ e
    else (if q % 2 = 0 then q else q + 1) * 2 ^ e

/-- Binary64 rounding of a signed integer value, the float() result on a
signed integer numeral. -/
def roundB64Int (t : Int) : Int :=
  if t < 0 then -(roundB64Nat t.natAbs : Int) else (roundB64Nat t.natAbs : Int)
example : parse_amount "25" = Except.ok 25 := by rfl
example : parse_amount "$25" = Except.ok 25 := by rfl
example : parse_amount "1,200" = Except.ok 1200 := by rfl
example : parse_amount "" = Except.error "no number" := by rfl
example : parse_amount "abc" = Except.error "no number" := by rfl
example : parse_amount "25abc" = Except.ok 25 := by rfl
example : parse_amount "--5" = Except.ok (-5) := by rfl
example : parse_amount "1234" = Except.ok 123 := by rfl
example : get_categories_with_sums_all threeInsertStore = [("Gas", 20), ("Food", 15)] := by with_unfolding_all rfl
example : sum_all_totals threeInsertStore = [("Gas", 20), ("Food", 15)] := by with_unfolding_all rfl
example : (log_expense_to_db (clear_all_data threeInsertStore) 4 "gas" 5 "" "").2 = 4 := by rfl
example : (text_router ⟨[], 0⟩ 7 "Food 25 Lunch").1.rows =
    [⟨1, 7, "", "Expense", "", 25, "food", "Lunch", "Cash", ""⟩] := by rfl
example : (text_router ⟨[], 0⟩ 7 "Food 25 Lunch").2 = Reply.logged 1 "Food" 25 := by with_unfolding_all rfl
example : text_router ⟨[], 0⟩ 7 "Food abc" = (⟨[], 0⟩, Reply.amountNotNumber) := by rfl
example : text_router ⟨[], 0⟩ 7 "Food" = (⟨[], 0⟩, Reply.needCategoryAmount) := by rfl
example : get_category_sum_all threeInsertStore "food" = 15 := by with_unfolding_all rfl
example : (detail_command threeInsertStore " FOOD ").1 = 15 := by with_unfolding_all rfl

lemma mem_insertDescQ {x z : String × ℚ} {l : List (String × ℚ)}
    (h : z ∈ insertDescQ x l) : z = x ∨ z ∈ l := by
  induction l with
  | nil => simpa [insertDescQ] using h
  | cons y ys ih =>
    by_cases hc : y.2 < x.2
    · simp only [insertDescQ, if_pos hc, List.mem_cons] at h
      rcases h with h | h | h
      · exact Or.inl h
      · exact Or.inr (List.mem_cons.mpr (Or.inl h))
      · exact Or.inr (List.mem_cons.mpr (Or.inr h))
    · simp only [insertDescQ, if_neg hc, List.mem_cons] at h
      rcases h with h | h
      · exact Or.inr (List.mem_cons.mpr (Or.inl h))
      · rcases ih h with h | h
        · exact Or.inl h
        · exact Or.inr (List.mem_cons.mpr (Or.inr h))

lemma pairwise_insertDescQ {x : String × ℚ} {l : List (String × ℚ)}
    (h : l.Pairwise (fun a b => b.2 ≤ a.2)) :
    (insertDescQ x l).Pairwise (fun a b => b.2 ≤ a.2) := by
  induction l with
  | nil => simp [insertDescQ]
  | cons y ys ih =>
    rcases List.pairwise_cons.mp h with ⟨hy, hys⟩
    by_cases hc : y.2 < x.2
    · rw [insertDescQ, if_pos hc]
      refine List.pairwise_cons.mpr ⟨?_, h⟩
      intro z hz
      rcases List.mem_cons.mp hz with rfl | hz
      · exact le_of_lt hc
      · exact le_trans (hy z hz) (le_of_lt hc)
    · rw [insertDescQ, if_neg hc]
      refine List.pairwise_cons.mpr ⟨?_, ih hys⟩
      intro z hz
      rcases mem_insertDescQ hz with rfl | hz
      · exact le_of_not_lt hc
      · exact hy z hz

lemma pairwise_sortDescQ_aux (l : List (String × ℚ)) :
    ∀ acc, acc.Pairwise (fun a b => b.2 ≤ a.2) →
      (l.foldl (fun acc x => insertDescQ x acc) acc).Pairwise (fun a b => b.2 ≤ a.2) := by
  induction l with
  | nil => intro acc h; simpa using h
  | cons x xs ih => intro acc h; exact ih _ (pairwise_insertDescQ h)

lemma pairwise_sortDescQ (l : List (String × ℚ)) :
    (sortDescQ l).Pairwise (fun a b => b.2 ≤ a.2) :=
  pairwise_sortDescQ_aux l [] (by simp)

/-- C1: the per-category totals are ordered by sum descending — both the rows
ORDER BY SUM(amount) DESC returns and the Python-sorted totals of sum_all —
and on the store holding exactly the Expense entries (Food, 10), (Food, 5),
(Gas, 20) the result is [(Gas, 20), (Food, 15)] in that order. -/
theorem totals_sorted_by_sum_desc :
    (∀ s : Store, (get_categories_with_sums_all s).Pairwise (fun a b => b.2 ≤ a.2))
  ∧ (∀ s : Store, (sum_all_totals s).Pairwise (fun a b => b.2 ≤ a.2))
  ∧ get_categories_with_sums_all threeInsertStore = [("Gas", 20), ("Food", 15)] :=
  ⟨fun _ => pairwise_sortDescQ _, fun _ => pairwise_sortDescQ _, by with_unfolding_all rfl⟩

lemma length_filter_lt_iff {α : Type} (p : α → Bool) (l : List α) :
    (l.filter p).length < l.length ↔ ∃ a ∈ l, ¬p a = true := by
  induction l with
  | nil => simp
  | cons a l ih =>
    cases hp : p a with
    | true =>
      simp only [List.filter_cons, hp, if_pos, List.length_cons, Nat.add_lt_add_iff_right, ih,
        List.mem_cons]
      constructor
      · rintro ⟨x, hx, hpx⟩; exact ⟨x, Or.inr hx, hpx⟩
      · rintro ⟨x, hx | hx, hpx⟩
        · subst hx; simp [hp] at hpx
        · exact ⟨x, hx, hpx⟩
    | false =>
      refine iff_of_true ?_ ⟨a, List.mem_cons_self a l, by simp [hp]⟩
      simp only [List.filter_cons, hp, List.length_cons]
      exact Nat.lt_succ_of_le (List.length_filter_le p l)

/-- C5: delete reports true exactly when a row with the id existed (and was
removed), and a second delete of the same id reports false; the operation is a
total function, never an error. -/
theorem delete_reports_existence (s : Store) (expense_id : Nat) :
    ((delete_expense_by_id_global s expense_id).2 = true ↔ ∃ e ∈ s.rows, e.id = expense_id)
  ∧ (delete_expense_by_id_global (delete_expense_by_id_global s expense_id).1 expense_id).2
      = false := by
  constructor
  · simp only [delete_expense_by_id_global, decide_eq_true_eq]
    rw [length_filter_lt_iff]
    simp
  · simp only [delete_expense_by_id_global, List.filter_filter, Bool.and_self,
      decide_eq_false_iff_not]
    exact lt_irrefl _

/-- C6: the per-category sum is the number 0 whenever no Expense row carries
the (lower-cased) category — in particular on the empty store; the embedded
function is total into the rationals, so the result is never null, absent or
an error. -/
theorem category_sum_zero_when_no_match (s : Store) (cat : String)
    (h : ∀ e ∈ s.rows, ¬(e.entry_type = "Expense" ∧ asciiLower e.category = cat)) :
    get_category_sum_all s cat = 0 := by
  unfold get_category_sum_all
  have hnil : s.rows.filter
      (fun e => e.entry_type == "Expense" && asciiLower e.category == cat) = [] := by
    rw [List.filter_eq_nil_iff]
    intro e he
    simp only [Bool.and_eq_true, beq_iff_eq, not_and]
    intro h1 h2
    exact h e he ⟨h1, h2⟩
  rw [hnil]
  simp

/-- C6 witness: the sum is 0 on the empty store and on a store whose only
Expense row carries a different category. -/
theorem category_sum_zero_when_no_match_witness :
    get_category_sum_all ⟨[], 0⟩ "food" = 0
  ∧ get_category_sum_all ⟨[⟨1, 0, "", "Expense", "", 3, "food", "", "Cash", ""⟩], 1⟩ "gas" = 0 :=
  ⟨category_sum_zero_when_no_match ⟨[], 0⟩ "food" (by simp),
   category_sum_zero_when_no_match _ "gas" (by decide)⟩

/-- C4 counterexample: on the three-entry store, clearing removes every row,
yet the next insert is assigned id 4, not 1 — the bare DELETE of
clear_all_data leaves the AUTOINCREMENT sequence untouched and src/bot.py has
no identity-reset variant of clear. -/
theorem clear_then_insert_id_not_one :
    (clear_all_data threeInsertStore).rows = []
  ∧ (log_expense_to_db (clear_all_data threeInsertStore) 4 "food" 10 "" "").2 = 4
  ∧ (log_expense_to_db (clear_all_data threeInsertStore) 4 "food" 10 "" "").2 ≠ 1 :=
  ⟨rfl, rfl, by decide⟩

/-- C4 amended: clear removes all rows, but the identity counter is not
reset — the insert following a clear is assigned the old sequence value plus
one, which is 1 only when nothing was ever inserted. -/
theorem clear_keeps_identity_sequence (s : Store) (now : Nat) (cat note user : String)
    (amt : ℚ) :
    (clear_all_data s).rows = []
  ∧ (log_expense_to_db (clear_all_data s) now cat amt note user).2 = s.seq + 1 :=
  ⟨rfl, rfl⟩

lemma groupSums_singleton (e : Entry) : groupSums [e] = [(e.category, e.amount)] := by
  simp [groupSums, distinctCats]

/-- C7: the aggregation window is an inclusive timestamp range — an Expense
entry inside the window (endpoints included) produces its category total, one
outside it is excluded, and with no window every entry is included. -/
theorem window_is_inclusive_range (e : Entry) (k a b : Nat)
    (hE : e.entry_type = "Expense") :
    ((a ≤ e.timestamp ∧ e.timestamp ≤ b) →
        get_totals_all ⟨[e], k⟩ (some (a, b)) = [(e.category, e.amount)])
  ∧ ((e.timestamp < a ∨ b < e.timestamp) →
        get_totals_all ⟨[e], k⟩ (some (a, b)) = [])
  ∧ get_totals_all ⟨[e], k⟩ none = [(e.category, e.amount)] := by
  refine ⟨?_, ?_, ?_⟩
  · intro hin
    unfold get_totals_all
    have : expenseInWindow (some (a, b)) e = true := by
      simp [expenseInWindow, hE, hin.1, hin.2]
    rw [List.filter_singleton, this, cond_true, groupSums_singleton]
  · intro hout
    unfold get_totals_all
    have : expenseInWindow (some (a, b)) e = false := by
      simp only [expenseInWindow, hE, Bool.and_eq_false_iff]
      right
      simp only [decide_eq_false_iff_not, not_and, not_le]
      intro hle
      rcases hout with hlt | hlt <;> omega
    rw [List.filter_singleton, this, cond_false]
    rfl
  · unfold get_totals_all
    have : expenseInWindow none e = true := by simp [expenseInWindow, hE]
    rw [List.filter_singleton, this, cond_true, groupSums_singleton]

/-- C7 witness: a row timestamped exactly at the window start is included, one
timestamped past the window end is excluded, and the windowless query returns
it. -/
theorem window_is_inclusive_range_witness :
    get_totals_all ⟨[⟨1, 5, "", "Expense", "", 10, "food", "", "Cash", ""⟩], 1⟩ (some (5, 9))
      = [("food", 10)]
  ∧ get_totals_all ⟨[⟨1, 12, "", "Expense", "", 10, "food", "", "Cash", ""⟩], 1⟩ (some (5, 9))
      = []
  ∧ get_totals_all ⟨[⟨1, 12, "", "Expense", "", 10, "food", "", "Cash", ""⟩], 1⟩ none
      = [("food", 10)] :=
  ⟨(window_is_inclusive_range ⟨1, 5, "", "Expense", "", 10, "food", "", "Cash", ""⟩ 1 5 9
      rfl).1 (by decide),
   (window_is_inclusive_range ⟨1, 12, "", "Expense", "", 10, "food", "", "Cash", ""⟩ 1 5 9
      rfl).2.1 (by decide),
   (window_is_inclusive_range ⟨1, 12, "", "Expense", "", 10, "food", "", "Cash", ""⟩ 1 5 9
      rfl).2.2⟩

/-- C2: when the amount token of a free-text submission is rejected by
parse_amount (the raised ValueError), the router replies with the amount error
and the store is returned exactly as it was — no entry is inserted. -/
theorem router_rejected_amount_leaves_store (s : Store) (now : Nat) (text : String)
    (p0 p1 : String) (rest : List String)
    (hsplit : splitMax2 (pyStrip text) = p0 :: p1 :: rest)
    (herr : ∃ msg, parse_amount p1 = Except.error msg) :
    text_router s now text = (s, Reply.amountNotNumber) := by
  obtain ⟨msg, hm⟩ := herr
  simp only [text_router, hsplit, hm]

/-- C2 witness: the submission with the unparsable amount token leaves the
empty store empty and yields the amount error reply. -/
theorem router_rejected_amount_leaves_store_witness :
    text_router ⟨[], 0⟩ 0 "Food abc" = (⟨[], 0⟩, Reply.amountNotNumber) :=
  router_rejected_amount_leaves_store ⟨[], 0⟩ 0 "Food abc" "Food" "abc" [] (by rfl)
    ⟨"no number", by rfl⟩

lemma isSignC_eq_false_of_digit {c : Char} (h : isDigitC c = true) : isSignC c = false := by
  simp only [isDigitC, Bool.and_eq_true, decide_eq_true_eq] at h
  simp only [isSignC, Bool.or_eq_false_iff, beq_eq_false_iff_ne]
  omega

lemma isDigitC_eq_false_of_alpha {c : Char} (h : isAlphaC c = true) : isDigitC c = false := by
  simp only [isAlphaC, Bool.or_eq_true, Bool.and_eq_true, decide_eq_true_eq] at h
  simp only [isDigitC, Bool.and_eq_false_iff, decide_eq_false_iff_not]
  omega

lemma isSignC_eq_false_of_alpha {c : Char} (h : isAlphaC c = true) : isSignC c = false := by
  simp only [isAlphaC, Bool.or_eq_true, Bool.and_eq_true, decide_eq_true_eq] at h
  simp only [isSignC, Bool.or_eq_false_iff, beq_eq_false_iff_ne]
  omega

lemma takeD3_isSome_of_digit {c : Char} (rest : List Char) (h : isDigitC c = true) :
    (takeD3 (c :: rest)).isSome = true := by
  rcases rest with _ | ⟨c2, r2⟩
  · simp [takeD3, h]
  · rcases r2 with _ | ⟨c3, r3⟩
    · cases h2 : isDigitC c2 <;> simp [takeD3, h, h2]
    · cases h2 : isDigitC c2
      · simp [takeD3, h, h2]
      · cases h3 : isDigitC c3 <;> simp [takeD3, h, h2, h3]

lemma matchAt_isSome_of_digit {c : Char} (rest : List Char) (h : isDigitC c = true) :
    ∃ m, matchAt (c :: rest) = some m := by
  obtain ⟨⟨ds, r1⟩, hp⟩ := Option.isSome_iff_exists.mp (takeD3_isSome_of_digit rest h)
  exact ⟨ds ++ (takeGroups r1).1 ++ (takeFrac (takeGroups r1).2).1,
    by simp [matchAt, matchAltA, isSignC_eq_false_of_digit h, matchTailA, hp]⟩

lemma reSearch_isSome_of_digit :
    ∀ cs : List Char, (∃ c ∈ cs, isDigitC c = true) → ∃ m, reSearch cs = some m := by
  intro cs
  induction cs with
  | nil => simp
  | cons c rest ih =>
    rintro ⟨d, hd, hdig⟩
    cases hat : matchAt (c :: rest) with
    | some m => exact ⟨m, by simp [reSearch, hat]⟩
    | none =>
      rcases List.mem_cons.mp hd with rfl | hmem
      · obtain ⟨m, hm⟩ := matchAt_isSome_of_digit rest hdig
        rw [hm] at hat
        cases hat
      · obtain ⟨m, hm⟩ := ih ⟨d, hmem, hdig⟩
        exact ⟨m, by simp [reSearch, hat, hm]⟩

/-- C10: parse_amount accepts any token containing a digit anywhere — it
removes every dollar sign (not only a leading one) and takes the value of the
first (leftmost) numeric substring, ignoring whatever surrounds it. -/
theorem parse_accepts_embedded_number :
    (∀ token : String, (∃ c ∈ token.data, isDigitC c = true) →
        ∃ v, parse_amount token = Except.ok v)
  ∧ parse_amount "25abc" = Except.ok 25
  ∧ parse_amount "x$2$5" = Except.ok 25
  ∧ parse_amount "ab1,234cd" = Except.ok 1234 := by
  refine ⟨?_, by rfl, by rfl, by rfl⟩
  rintro token ⟨c, hc, hdig⟩
  have hne : (c != '$') = true := by
    simp only [bne_iff_ne, ne_eq]
    intro hcd
    subst hcd
    simp [isDigitC] at hdig
  obtain ⟨m, hm⟩ :=
    reSearch_isSome_of_digit (token.data.filter (fun c => c != '$'))
      ⟨c, List.mem_filter.mpr ⟨hc, hne⟩, hdig⟩
  exact ⟨floatOfChars (m.filter (fun c => c != ',')), by simp [parse_amount, hm]⟩

/-- C10 witness: a token that is not entirely numeric still parses. -/
theorem parse_accepts_embedded_number_witness : ∃ v, parse_amount "z9" = Except.ok v :=
  parse_accepts_embedded_number.1 "z9" ⟨'9', by decide, by decide⟩

lemma matchAt_none_of_alpha {c : Char} (rest : List Char) (h : isAlphaC c = true) :
    matchAt (c :: rest) = none := by
  have hd := isDigitC_eq_false_of_alpha h
  have hs := isSignC_eq_false_of_alpha h
  simp [matchAt, matchAltA, matchAltB, matchTailA, matchTailB, takeD3, hd, hs]

lemma reSearch_none_of_alpha :
    ∀ cs : List Char, (∀ c ∈ cs, isAlphaC c = true) → reSearch cs = none := by
  intro cs
  induction cs with
  | nil => intro _; rfl
  | cons c rest ih =>
    intro h
    have hc := h c (List.mem_cons_self c rest)
    rw [reSearch, matchAt_none_of_alpha rest hc]
    exact ih (fun d hd => h d (List.mem_cons_of_mem c hd))

/-- C3 counterexample: a token with multiple signs is not rejected —
parse_amount on the doubly signed token finds the trailing signed number (the
leftmost search simply skips the extra sign) and returns minus five instead of
an error. -/
theorem parse_multiple_signs_not_rejected : parse_amount "--5" = Except.ok (-5) := by rfl

/-- C3 amended: parse_amount yields an error — in src/bot.py a raised
ValueError, caught by its caller, modelled here as an error value — on the
empty token and on every token of pure letters; but a token with multiple
signs directly followed by digits is accepted, the search skipping the extra
signs. -/
theorem parse_error_on_empty_and_pure_letters :
    parse_amount "" = Except.error "no number"
  ∧ (∀ s : String, (∀ c ∈ s.data, isAlphaC c = true) →
        parse_amount s = Except.error "no number") := by
  refine ⟨by rfl, ?_⟩
  intro s h
  have : reSearch (s.data.filter (fun c => c != '$')) = none := by
    apply reSearch_none_of_alpha
    intro c hc
    exact h c (List.mem_filter.mp hc).1
  simp [parse_amount, this]

/-- C3 witness: a pure-letter token yields the error value. -/
theorem parse_error_on_empty_and_pure_letters_witness :
    parse_amount "abc" = Except.error "no number" :=
  parse_error_on_empty_and_pure_letters.2 "abc" (by decide)

/-- C8 counterexample: the router stores the category lower-cased, not
case-preserved — the submitted label Food is stored as food — and the grouped
totals compare stored labels exactly, so rows labelled Food and food form two
groups rather than one. -/
theorem category_not_stored_case_preserved :
    ((text_router ⟨[], 0⟩ 7 "Food 10").1.rows.map (fun e => e.category) = ["food"])
  ∧ ("food" : String) ≠ "Food"
  ∧ (get_totals_all ⟨[⟨1, 1, "", "Expense", "", 2, "Food", "", "Cash", ""⟩,
        ⟨2, 2, "", "Expense", "", 3, "food", "", "Cash", ""⟩], 2⟩ none).length = 2 :=
  ⟨by with_unfolding_all rfl, by decide, by with_unfolding_all rfl⟩

lemma char_toNat_ofNat {n : Nat} (h : n < 55296) : (Char.ofNat n).toNat = n := by
  have hv : n.isValidChar := Or.inl h
  rw [Char.ofNat, dif_pos hv]
  rfl

lemma asciiLowerChar_idem (c : Char) :
    asciiLowerChar (asciiLowerChar c) = asciiLowerChar c := by
  unfold asciiLowerChar
  by_cases h : 65 ≤ c.toNat ∧ c.toNat ≤ 90
  · rw [if_pos h]
    have ht : (Char.ofNat (c.toNat + 32)).toNat = c.toNat + 32 := char_toNat_ofNat (by omega)
    rw [if_neg (by omega)]
  · rw [if_neg h, if_neg h]

lemma mem_of_mem_dropWhile {p : Char → Bool} {c : Char} :
    ∀ {l : List Char}, c ∈ l.dropWhile p → c ∈ l := by
  intro l
  induction l with
  | nil => simp
  | cons a l ih =>
    intro h
    rw [List.dropWhile_cons] at h
    by_cases hp : p a = true
    · rw [if_pos hp] at h
      exact List.mem_cons_of_mem a (ih h)
    · rw [if_neg hp] at h
      exact h

lemma mem_of_mem_pyStripChars {c : Char} {l : List Char} (h : c ∈ pyStripChars l) : c ∈ l := by
  unfold pyStripChars at h
  rw [List.mem_reverse] at h
  have h2 := mem_of_mem_dropWhile h
  rw [List.mem_reverse] at h2
  exact mem_of_mem_dropWhile h2

lemma map_eq_self_of_fixed {f : Char → Char} :
    ∀ {l : List Char}, (∀ c ∈ l, f c = c) → l.map f = l := by
  intro l
  induction l with
  | nil => intro _; rfl
  | cons a l ih =>
    intro h
    rw [List.map_cons, h a (List.mem_cons_self a l),
      ih (fun c hc => h c (List.mem_cons_of_mem a hc))]

lemma asciiLower_fixes_stripped_lower (p0 : String) :
    asciiLower (pyStrip (asciiLower p0)) = pyStrip (asciiLower p0) := by
  unfold asciiLower pyStrip
  refine congrArg String.mk ?_
  apply map_eq_self_of_fixed
  intro c hc
  have hc2 : c ∈ (String.mk (p0.data.map asciiLowerChar)).data := mem_of_mem_pyStripChars hc
  obtain ⟨d, _, hd⟩ := List.mem_map.mp hc2
  rw [← hd, asciiLowerChar_idem]

/-- C8 amended: the per-category sum behind the detail lookup matches
case-insensitively (both the stored label and the query key are lower-cased),
but the stored label is not case-preserved: every row the router inserts
carries an already lower-cased category. -/
theorem category_match_insensitive_but_stored_lower :
    (∀ (e : Entry) (k : Nat) (raw : String), e.entry_type = "Expense" →
        asciiLower e.category = asciiLower (pyStrip raw) →
        (detail_command ⟨[e], k⟩ raw).1 = e.amount)
  ∧ (∀ (s : Store) (now : Nat) (text : String), ∀ e ∈ (text_router s now text).1.rows,
        e ∈ s.rows ∨ asciiLower e.category = e.category) := by
  constructor
  · intro e k raw h1 h2
    have hcond :
        (e.entry_type == "Expense" && asciiLower e.category == asciiLower (pyStrip raw))
          = true := by
      simp [h1, h2]
    simp only [detail_command, get_category_sum_all, List.filter_singleton, hcond, cond_true,
      List.map_cons, List.map_nil, List.sum_cons, List.sum_nil, add_zero]
  · intro s now text e he
    rcases hsplit : splitMax2 (pyStrip text) with _ | ⟨p0, _ | ⟨p1, rest⟩⟩ <;>
      simp only [text_router, hsplit] at he
    · exact Or.inl he
    · exact Or.inl he
    · rcases hpa : parse_amount p1 with msg | amt <;> simp only [hpa] at he
      · exact Or.inl he
      · simp only [log_expense_to_db, List.mem_append, List.mem_singleton] at he
        rcases he with h | h
        · exact Or.inl h
        · refine Or.inr ?_
          rw [h]
          exact asciiLower_fixes_stripped_lower p0

/-- C8 witness: a differently cased query key still finds the stored row, and
a freshly routed row has a lower-cased category. -/
theorem category_match_insensitive_but_stored_lower_witness :
    (detail_command ⟨[⟨1, 0, "", "Expense", "", 5, "Food", "", "Cash", ""⟩], 1⟩ "fOOd").1 = 5
  ∧ (∀ e ∈ (text_router ⟨[], 0⟩ 7 "Food 10").1.rows,
        e ∈ (⟨[], 0⟩ : Store).rows ∨ asciiLower e.category = e.category) :=
  ⟨category_match_insensitive_but_stored_lower.1
      ⟨1, 0, "", "Expense", "", 5, "Food", "", "Cash", ""⟩ 1 "fOOd" rfl (by decide),
   category_match_insensitive_but_stored_lower.2 ⟨[], 0⟩ 7 "Food 10"⟩

lemma digitChar_facts :
    ∀ d, d < 10 → isDigitC (Char.ofNat (48 + d)) = true ∧ charVal (Char.ofNat (48 + d)) = d := by
  decide

lemma foldl_digitsVal_shift :
    ∀ (ys : List Char) (a : Nat),
      ys.foldl (fun a c => 10 * a + charVal c) a = a * 10 ^ ys.length + digitsVal ys := by
  intro ys
  induction ys with
  | nil => intro a; simp [digitsVal]
  | cons c ys ih =>
    intro a
    have hv : digitsVal (c :: ys) = charVal c * 10 ^ ys.length + digitsVal ys := by
      show List.foldl _ (10 * 0 + charVal c) ys = _
      rw [ih]
      ring_nf
    rw [List.foldl_cons, ih, hv, List.length_cons]
    ring

lemma digitsVal_append (xs ys : List Char) :
    digitsVal (xs ++ ys) = digitsVal xs * 10 ^ ys.length + digitsVal ys := by
  unfold digitsVal
  rw [List.foldl_append]
  exact foldl_digitsVal_shift ys _

lemma natDigitChars_all_digit (n : Nat) : ∀ c ∈ natDigitChars n, isDigitC c = true := by
  induction n using Nat.strong_induction_on with
  | h n ih =>
    by_cases h : n < 10
    · rw [natDigitChars, dif_pos h]
      intro c hc
      rw [List.mem_singleton] at hc
      subst hc
      exact (digitChar_facts n h).1
    · rw [natDigitChars, dif_neg h]
      intro c hc
      rcases List.mem_append.mp hc with hc | hc
      · exact ih (n / 10) (Nat.div_lt_self (by omega) (by omega)) c hc
      · rw [List.mem_singleton] at hc
        subst hc
        exact (digitChar_facts (n % 10) (Nat.mod_lt _ (by omega))).1

lemma natDigitChars_ne_nil (n : Nat) : natDigitChars n ≠ [] := by
  by_cases h : n < 10
  · rw [natDigitChars, dif_pos h]; simp
  · rw [natDigitChars, dif_neg h]; simp

lemma natDigitChars_val (n : Nat) : digitsVal (natDigitChars n) = n := by
  induction n using Nat.strong_induction_on with
  | h n ih =>
    by_cases h : n < 10
    · rw [natDigitChars, dif_pos h]
      show 10 * 0 + charVal (Char.ofNat (48 + n)) = n
      rw [(digitChar_facts n h).2]
      omega
    · rw [natDigitChars, dif_neg h, digitsVal_append,
        ih (n / 10) (Nat.div_lt_self (by omega) (by omega))]
      have hmod : digitsVal [Char.ofNat (48 + n % 10)] = n % 10 := by
        show 10 * 0 + charVal (Char.ofNat (48 + n % 10)) = n % 10
        rw [(digitChar_facts (n % 10) (Nat.mod_lt _ (by omega))).2]
        omega
      rw [hmod]
      simp only [List.length_singleton, pow_one]
      omega

lemma natDigitChars_length_le_three {n : Nat} (h : n < 1000) :
    (natDigitChars n).length ≤ 3 := by
  by_cases h1 : n < 10
  · rw [natDigitChars, dif_pos h1]; simp
  · rw [natDigitChars, dif_neg h1]
    rw [List.length_append, List.length_singleton]
    by_cases h2 : n / 10 < 10
    · rw [natDigitChars, dif_pos h2]; simp
    · rw [natDigitChars, dif_neg h2, List.length_append, List.length_singleton]
      rw [natDigitChars, dif_pos (show n / 10 / 10 < 10 by omega)]
      simp

lemma pad3_all_digit {ds : List Char} (h : ∀ c ∈ ds, isDigitC c = true) :
    ∀ c ∈ pad3 ds, isDigitC c = true := by
  intro c hc
  rcases List.mem_append.mp hc with hc | hc
  · rw [List.eq_of_mem_replicate hc]; decide
  · exact h c hc

lemma pad3_length {ds : List Char} (h : ds.length ≤ 3) : (pad3 ds).length = 3 := by
  simp only [pad3, List.length_append, List.length_replicate]
  omega

lemma digitsVal_replicate_zero (k : Nat) : digitsVal (List.replicate k '0') = 0 := by
  induction k with
  | zero => rfl
  | succ k ih =>
    rw [List.replicate_succ]
    show List.foldl _ (10 * 0 + charVal '0') (List.replicate k '0') = 0
    have : (10 * 0 + charVal '0') = 0 := by decide
    rw [this]
    exact ih

lemma digitsVal_pad3 (ds : List Char) : digitsVal (pad3 ds) = digitsVal ds := by
  unfold pad3
  rw [digitsVal_append, digitsVal_replicate_zero, zero_mul, zero_add]

/-- Well-formed group list: every group is exactly three digit characters. -/
def goodG (gs : List (List Char)) : Prop :=
  ∀ g ∈ gs, g.length = 3 ∧ ∀ c ∈ g, isDigitC c = true

lemma flatG_append_singleton (gs : List (List Char)) (g : List Char) :
    flatG (gs ++ [g]) = flatG gs ++ ',' :: g := by
  induction gs with
  | nil => simp [flatG]
  | cons g0 gs ih => simp [flatG, ih]

lemma mem_flatG {c : Char} : ∀ {gs : List (List Char)},
    c ∈ flatG gs → c = ',' ∨ ∃ g ∈ gs, c ∈ g := by
  intro gs
  induction gs with
  | nil => simp [flatG]
  | cons g gs ih =>
    intro h
    have h2 : c = ',' ∨ c ∈ g ∨ c ∈ flatG gs := by simpa [flatG] using h
    rcases h2 with h | h | h
    · exact Or.inl h
    · exact Or.inr ⟨g, List.mem_cons_self g gs, h⟩
    · rcases ih h with h | ⟨g1, hg1, hc1⟩
      · exact Or.inl h
      · exact Or.inr ⟨g1, List.mem_cons_of_mem g hg1, hc1⟩

lemma formatNat_filter_comma_val (n : Nat) :
    digitsVal ((formatNat n).filter (fun c => c != ',')) = n := by
  induction n using Nat.strong_induction_on with
  | h n ih =>
    by_cases h : n < 1000
    · rw [formatNat, dif_pos h]
      rw [List.filter_eq_self.mpr, natDigitChars_val]
      intro c hc
      have hd := natDigitChars_all_digit n c hc
      simp only [bne_iff_ne, ne_eq]
      intro hcc
      rw [hcc] at hd
      exact absurd hd (by decide)
    · rw [formatNat, dif_neg h, List.filter_append]
      have hpad : ∀ c ∈ pad3 (natDigitChars (n % 1000)), isDigitC c = true :=
        pad3_all_digit (natDigitChars_all_digit (n % 1000))
      have hfilpad : (',' :: pad3 (natDigitChars (n % 1000))).filter (fun c => c != ',')
          = pad3 (natDigitChars (n % 1000)) := by
        rw [List.filter_cons]
        have : (',' != ',') = false := by decide
        rw [this]
        simp only [Bool.false_eq_true, if_neg Bool.false_ne_true]
        apply List.filter_eq_self.mpr
        intro c hc
        have hd := hpad c hc
        simp only [bne_iff_ne, ne_eq]
        intro hcc
        rw [hcc] at hd
        exact absurd hd (by decide)
      rw [hfilpad, digitsVal_append, digitsVal_pad3, natDigitChars_val,
        pad3_length (natDigitChars_length_le_three (Nat.mod_lt _ (by omega))),
        ih (n / 1000) (Nat.div_lt_self (by omega) (by omega))]
      have : (10 : Nat) ^ 3 = 1000 := by norm_num
      rw [this]
      omega

lemma formatNat_shape (n : Nat) :
    ∃ g0 gs, formatNat n = g0 ++ flatG gs ∧ g0 ≠ [] ∧ g0.length ≤ 3 ∧
      (∀ c ∈ g0, isDigitC c = true) ∧ goodG gs := by
  induction n using Nat.strong_induction_on with
  | h n ih =>
    by_cases h : n < 1000
    · refine ⟨natDigitChars n, [], ?_, natDigitChars_ne_nil n,
        natDigitChars_length_le_three h, natDigitChars_all_digit n, ?_⟩
      · rw [formatNat, dif_pos h]
        simp [flatG]
      · intro g hg
        simp at hg
    · obtain ⟨g0, gs, heq, hne, hlen, hdig, hgs⟩ :=
        ih (n / 1000) (Nat.div_lt_self (by omega) (by omega))
      refine ⟨g0, gs ++ [pad3 (natDigitChars (n % 1000))], ?_, hne, hlen, hdig, ?_⟩
      · rw [formatNat, dif_neg h, heq, flatG_append_singleton, List.append_assoc]
      · intro g hg
        rcases List.mem_append.mp hg with hg | hg
        · exact hgs g hg
        · rw [List.mem_singleton] at hg
          subst hg
          exact ⟨pad3_length (natDigitChars_length_le_three (Nat.mod_lt _ (by omega))),
            pad3_all_digit (natDigitChars_all_digit (n % 1000))⟩

lemma takeGroups_flatG : ∀ {gs : List (List Char)}, goodG gs →
    takeGroups (flatG gs) = (flatG gs, []) := by
  intro gs
  induction gs with
  | nil => intro _; rfl
  | cons g gs ih =>
    intro h
    obtain ⟨hlen, hdig⟩ := h g (List.mem_cons_self g gs)
    rcases g with _ | ⟨d1, g⟩
    · simp at hlen
    rcases g with _ | ⟨d2, g⟩
    · simp at hlen
    rcases g with _ | ⟨d3, g⟩
    · simp at hlen
    rcases g with _ | ⟨d4, g⟩
    swap
    · simp at hlen
    have h1 : isDigitC d1 = true := hdig d1 (by simp)
    have h2 : isDigitC d2 = true := hdig d2 (by simp)
    have h3 : isDigitC d3 = true := hdig d3 (by simp)
    have ihh := ih (fun g1 hg1 => h g1 (List.mem_cons_of_mem _ hg1))
    simp [flatG, takeGroups, h1, h2, h3, ihh]

lemma takeD3_group {g0 tail : List Char} (hne : g0 ≠ []) (hlen : g0.length ≤ 3)
    (hdig : ∀ c ∈ g0, isDigitC c = true)
    (htail : tail = [] ∨ ∃ rest, tail = ',' :: rest) :
    takeD3 (g0 ++ tail) = some (g0, tail) := by
  have hcomma : isDigitC ',' = false := by decide
  rcases g0 with _ | ⟨a, g0⟩
  · exact absurd rfl hne
  rcases g0 with _ | ⟨b, g0⟩
  · have ha := hdig a (by simp)
    rcases htail with rfl | ⟨rest, rfl⟩
    · simp [takeD3, ha]
    · simp [takeD3, ha, hcomma]
  rcases g0 with _ | ⟨c, g0⟩
  · have ha := hdig a (by simp)
    have hb := hdig b (by simp)
    rcases htail with rfl | ⟨rest, rfl⟩
    · simp [takeD3, ha, hb]
    · simp [takeD3, ha, hb, hcomma]
  rcases g0 with _ | ⟨d, g0⟩
  · have ha := hdig a (by simp)
    have hb := hdig b (by simp)
    have hc := hdig c (by simp)
    simp [takeD3, ha, hb, hc]
  · simp at hlen

lemma matchTailA_grouped {g0 : List Char} {gs : List (List Char)} (hne : g0 ≠ [])
    (hlen : g0.length ≤ 3) (hdig : ∀ c ∈ g0, isDigitC c = true) (hgs : goodG gs) :
    matchTailA (g0 ++ flatG gs) = some (g0 ++ flatG gs) := by
  have htail : flatG gs = [] ∨ ∃ rest, flatG gs = ',' :: rest := by
    cases gs with
    | nil => exact Or.inl rfl
    | cons g gs => exact Or.inr ⟨g ++ flatG gs, rfl⟩
  rw [matchTailA, takeD3_group hne hlen hdig htail]
  simp [takeGroups_flatG hgs, takeFrac]

lemma floatMag_digits {ds : List Char} (h : ∀ c ∈ ds, isDigitC c = true) :
    floatMag ds = (digitsVal ds : ℚ) := by
  have htw : ds.takeWhile isDigitC = ds := List.takeWhile_eq_self_iff.mpr h
  have hdw : ds.dropWhile isDigitC = [] := List.dropWhile_eq_nil_iff.mpr h
  simp [floatMag, htw, hdw]

lemma floatOfChars_digits {ds : List Char} (h0 : ds ≠ [])
    (h : ∀ c ∈ ds, isDigitC c = true) : floatOfChars ds = (digitsVal ds : ℚ) := by
  rcases ds with _ | ⟨c, ds⟩
  · exact absurd rfl h0
  have hc := h c (List.mem_cons_self c ds)
  have hminus : ¬c = '-' := by
    intro hh
    rw [hh] at hc
    exact absurd hc (by decide)
  have hplus : ¬c = '+' := by
    intro hh
    rw [hh] at hc
    exact absurd hc (by decide)
  rw [floatOfChars, if_neg hminus, if_neg hplus]
  exact floatMag_digits h

/-- Exact value of the match: the regex recovers the whole formatted numeral,
whose exact (pre-rounding) value is the formatted integer.  The float() call
of the source then rounds this exact value to binary64. -/
lemma parse_amount_formatAmount_exact (t : Int) :
    parse_amount (formatAmount t) = Except.ok (t : ℚ) := by
  obtain ⟨g0, gs, heq, hne, hlen, hdig, hgs⟩ := formatNat_shape t.natAbs
  have hchars : ∀ c ∈ formatNat t.natAbs, isDigitC c = true ∨ c = ',' := by
    intro c hc
    rw [heq] at hc
    rcases List.mem_append.mp hc with hc | hc
    · exact Or.inl (hdig c hc)
    · rcases mem_flatG hc with hc | ⟨g, hg, hcg⟩
      · exact Or.inr hc
      · exact Or.inl ((hgs g hg).2 c hcg)
  have hds : ∀ c ∈ formatNat t.natAbs, (c != '$') = true := by
    intro c hc
    simp only [bne_iff_ne, ne_eq]
    intro hh
    rcases hchars c hc with h | h
    · rw [hh] at h
      exact absurd h (by decide)
    · rw [hh] at h
      exact absurd h (by decide)
  have hTail : matchTailA (g0 ++ flatG gs) = some (g0 ++ flatG gs) :=
    matchTailA_grouped hne hlen hdig hgs
  have hrCdig : ∀ c ∈ (formatNat t.natAbs).filter (fun c => c != ','),
      isDigitC c = true := by
    intro c hc
    rcases List.mem_filter.mp hc with ⟨hc1, hc2⟩
    rcases hchars c hc1 with h | h
    · exact h
    · rw [h] at hc2
      exact absurd hc2 (by decide)
  have hrCne : (formatNat t.natAbs).filter (fun c => c != ',') ≠ [] := by
    rw [heq, List.filter_append]
    have hg0 : g0.filter (fun c => c != ',') = g0 := by
      apply List.filter_eq_self.mpr
      intro c hc
      have hd := hdig c hc
      simp only [bne_iff_ne, ne_eq]
      intro hcc
      rw [hcc] at hd
      exact absurd hd (by decide)
    rw [hg0]
    intro hcon
    exact hne (List.append_eq_nil.mp hcon).1
  have hfloat : floatOfChars ((formatNat t.natAbs).filter (fun c => c != ','))
      = (t.natAbs : ℚ) := by
    rw [floatOfChars_digits hrCne hrCdig, formatNat_filter_comma_val]
  rcases hg0eq : g0 with _ | ⟨a, g0tl⟩
  · exact absurd hg0eq hne
  subst hg0eq
  have ha : isDigitC a = true := hdig a (by simp)
  have hAt : matchAt (a :: (g0tl ++ flatG gs)) = some ((a :: g0tl) ++ flatG gs) := by
    have hs := isSignC_eq_false_of_digit ha
    rw [matchAt.eq_def]
    rw [show matchAltA (a :: (g0tl ++ flatG gs)) = some ((a :: g0tl) ++ flatG gs) by
      rw [matchAltA, if_neg (by rw [hs]; exact Bool.false_ne_true), ← List.cons_append]
      exact hTail]
  have hsearch : reSearch (formatNat t.natAbs) = some ((a :: g0tl) ++ flatG gs) := by
    rw [heq, List.cons_append, reSearch, hAt]
    rfl
  by_cases ht : t < 0
  · have hdata : (formatAmount t).data = '-' :: formatNat t.natAbs := by
      simp [formatAmount, if_pos ht]
    have hfil : (formatAmount t).data.filter (fun c => c != '$')
        = '-' :: formatNat t.natAbs := by
      rw [hdata, List.filter_cons]
      rw [show ('-' != '$') = true from by decide]
      simp only [if_pos]
      rw [List.filter_eq_self.mpr hds]
    have hsearch2 : reSearch ('-' :: formatNat t.natAbs)
        = some ('-' :: formatNat t.natAbs) := by
      rw [reSearch]
      have hAt2 : matchAt ('-' :: formatNat t.natAbs)
          = some ('-' :: formatNat t.natAbs) := by
        rw [matchAt.eq_def]
        rw [show matchAltA ('-' :: formatNat t.natAbs)
            = some ('-' :: formatNat t.natAbs) by
          rw [matchAltA, if_pos (by decide), heq, hTail]
          rw [← heq]
          rfl]
      rw [hAt2]
    rw [parse_amount, hfil, hsearch2]
    show Except.ok (floatOfChars
      (List.filter (fun c => c != ',') ('-' :: formatNat t.natAbs))) = Except.ok (t : ℚ)
    have hfil2 : ('-' :: formatNat t.natAbs).filter (fun c => c != ',')
        = '-' :: (formatNat t.natAbs).filter (fun c => c != ',') := by
      rw [List.filter_cons]
      rw [show ('-' != ',') = true from by decide]
      simp only [if_pos]
    rw [hfil2]
    have hneg : floatOfChars ('-' :: (formatNat t.natAbs).filter (fun c => c != ','))
        = -((t.natAbs : ℚ)) := by
      rw [floatOfChars, if_pos rfl, floatMag_digits hrCdig, formatNat_filter_comma_val]
    rw [hneg]
    have hcast : ((t.natAbs : ℚ)) = -(t : ℚ) := by
      rw [Int.cast_natAbs, abs_of_nonpos (le_of_lt ht)]
      exact Int.cast_neg t
    rw [hcast, neg_neg]
  · have hdata : (formatAmount t).data = formatNat t.natAbs := by
      simp [formatAmount, if_neg ht]
    have hfil : (formatAmount t).data.filter (fun c => c != '$') = formatNat t.natAbs := by
      rw [hdata, List.filter_eq_self.mpr hds]
    rw [parse_amount, hfil, hsearch]
    show Except.ok (floatOfChars
      (List.filter (fun c => c != ',') ((a :: g0tl) ++ flatG gs))) = Except.ok (t : ℚ)
    rw [show (a :: g0tl) ++ flatG gs = formatNat t.natAbs from heq.symm]
    rw [hfloat]
    have hcast : ((t.natAbs : ℚ)) = (t : ℚ) := by
      rw [Int.cast_natAbs, abs_of_nonneg (le_of_not_lt ht)]
    rw [hcast]

/-- C9 counterexample: for the integer 99999999999999999999, larger than
2 ^ 53, the matched numeral has exact value 99999999999999999999, but the
binary64 rounding that float() applies yields 100000000000000000000: the code
returns 1e20, not the integer back, so the round-trip claimed for every
integer fails. -/
theorem parse_amount_format_roundtrip_large_fails :
    parse_amount (formatAmount 99999999999999999999)
      = Except.ok (((99999999999999999999 : Int)) : ℚ)
  ∧ roundB64Int 99999999999999999999 = 100000000000000000000
  ∧ (100000000000000000000 : Int) ≠ 99999999999999999999 := by
  refine ⟨parse_amount_formatAmount_exact 99999999999999999999, ?_, by norm_num⟩
  have hlog : Nat.log2 99999999999999999999 = 66 := by
    rw [Nat.log2_eq_log_two]
    exact Nat.log_eq_of_pow_le_of_lt_pow (by norm_num) (by norm_num)
  have h : roundB64Nat 99999999999999999999 = 100000000000000000000 := by
    rw [roundB64Nat, if_neg (by norm_num)]
    simp only [hlog]
    norm_num
  rw [roundB64Int, if_neg (by norm_num)]
  norm_num [h]

/-- C9 amended: the round-trip holds exactly for the integers a binary64
float represents exactly — for every integer t of magnitude at most 2 ^ 53,
the match on the formatted rendering recovers the numeral with exact value t
and the binary64 rounding applied by float() is the identity, so the code
returns t; the rendering of 1200 is the thousands-separated form. -/
theorem parse_amount_format_roundtrip_representable :
    (∀ t : Int, t.natAbs ≤ 2 ^ 53 →
        parse_amount (formatAmount t) = Except.ok (t : ℚ) ∧ roundB64Int t = t)
  ∧ formatAmount 1200 = "1,200" ∧ formatAmount (-45) = "-45" := by
  refine ⟨?_, by simp [formatAmount, formatNat, natDigitChars, pad3],
    by simp [formatAmount, formatNat, natDigitChars, pad3]⟩
  intro t ht
  refine ⟨parse_amount_formatAmount_exact t, ?_⟩
  rw [roundB64Int]
  rw [show roundB64Nat t.natAbs = t.natAbs from by rw [roundB64Nat, if_pos ht]]
  by_cases h : t < 0
  · rw [if_pos h, Int.ofNat_natAbs_of_nonpos (le_of_lt h), neg_neg]
  · rw [if_neg h]
    exact Int.natAbs_of_nonneg (le_of_not_lt h)

/-- C9 witness: 1200 is binary64-representable and round-trips. -/
theorem parse_amount_format_roundtrip_representable_witness :
    parse_amount (formatAmount 1200) = Except.ok (((1200 : Int)) : ℚ)
  ∧ roundB64Int 1200 = 1200 :=
  parse_amount_format_roundtrip_representable.1 1200 (by norm_num)
